import Mathlib

/-!
Verification of the MPU6050 visualization programs `mpu60503d.py` (3-axis
duck variant) and `mpu_pitch_roll.py` (2-axis cube variant).

Lines from the serial byte source are modelled as lists of characters; a
read that times out yields the empty line, matching `ser.readline()`
returning an empty byte string.  Python float values are modelled as exact
rationals for the decoding layer and as real numbers once trigonometry is
involved; the decimal-literal grammar accepted by Python `float` (optional
surrounding whitespace, optional sign, digits with optional fractional part
or a bare fractional part, optional decimal exponent) is implemented
explicitly below.
-/

open Matrix

abbrev Line := List Char

/-- Whitespace characters removed by Python `str.strip`. -/
def isPySpace (c : Char) : Bool :=
  c = ' ' || c = '\t' || c = '\n' || c = '\r' || c = '\x0b' || c = '\x0c'

/-- Model of Python `str.strip`: drop whitespace from both ends. -/
def strip (s : Line) : Line :=
  ((s.dropWhile isPySpace).reverse.dropWhile isPySpace).reverse

/-- Numeric value of a list of decimal digit characters. -/
def digitsToNat (ds : Line) : ℕ :=
  ds.foldl (fun a c => a * 10 + (c.toNat - 48)) 0

/-- Mantissa of a Python float literal: `D+ [. D*]` or `. D+`; returns the
value together with the unconsumed remainder of the field. -/
def parseMantissa (s : Line) : Option (ℚ × Line) :=
  let ip := s.takeWhile Char.isDigit
  let r1 := s.dropWhile Char.isDigit
  match r1 with
  | '.' :: r2 =>
      let fp := r2.takeWhile Char.isDigit
      let r3 := r2.dropWhile Char.isDigit
      if ip = [] ∧ fp = [] then none
      else some ((digitsToNat ip : ℚ) + (digitsToNat fp : ℚ) / 10 ^ fp.length, r3)
  | _ => if ip = [] then none else some ((digitsToNat ip : ℚ), r1)

/-- Decimal exponent suffix of a Python float literal: empty, or
`e`/`E` followed by an optional sign and at least one digit. -/
def parseExp (s : Line) : Option ℤ :=
  match s with
  | [] => some 0
  | c :: rest =>
      if c = 'e' ∨ c = 'E' then
        match rest with
        | '+' :: ds =>
            if ds ≠ [] ∧ ds.all Char.isDigit then some (digitsToNat ds) else none
        | '-' :: ds =>
            if ds ≠ [] ∧ ds.all Char.isDigit then some (-(digitsToNat ds : ℤ)) else none
        | ds =>
            if ds ≠ [] ∧ ds.all Char.isDigit then some (digitsToNat ds) else none
      else none

/-- Model of Python `float` on one field: strip whitespace, optional sign,
then a decimal mantissa followed by an optional exponent; anything else
raises `ValueError` in Python, modelled as `none`. -/
def pyFloat (s : Line) : Option ℚ :=
  match strip s with
  | [] => none
  | c :: cs =>
      let body := if c = '+' ∨ c = '-' then cs else c :: cs
      let sgn : ℚ := if c = '-' then -1 else 1
      match parseMantissa body with
      | none => none
      | some (m, rest) =>
          match parseExp rest with
          | none => none
          | some e => some (sgn * m * 10 ^ e)

/-- Model of Python `str.split` on a comma: the empty string yields one
empty field, and every comma starts a fresh field. -/
def splitOnComma : Line → List Line
  | [] => [[]]
  | c :: rest =>
      if c = ',' then [] :: splitOnComma rest
      else
        match splitOnComma rest with
        | [] => [[c]]
        | f :: fs => (c :: f) :: fs

/-- Inverse of `splitOnComma`: rejoin fields with commas. -/
def joinComma : List Line → Line
  | [] => []
  | [x] => x
  | x :: xs => x ++ ',' :: joinComma xs

namespace Mpu3d

/-- `parse_line` of `mpu60503d.py`: strip, split on commas, require exactly
three fields and parse each as a float; any failure yields the uniform
`(None, None, None)` result. -/
def parse_line (line : Line) : Option ℚ × Option ℚ × Option ℚ :=
  match splitOnComma (strip line) with
  | [a, b, c] =>
      match pyFloat a, pyFloat b, pyFloat c with
      | some y, some p, some r => (some y, some p, some r)
      | _, _, _ => (none, none, none)
  | _ => (none, none, none)

end Mpu3d

namespace MpuPitchRoll

/-- Buffer capacity from `mpu_pitch_roll.py`. -/
def WINDOW : ℕ := 200

/-- `parse_line` of `mpu_pitch_roll.py`: strip, split on commas, require at
least two fields (extras ignored) and parse the first two as floats; any
failure yields the uniform `(None, None)` result. -/
def parse_line (line : Line) : Option ℚ × Option ℚ :=
  match splitOnComma (strip line) with
  | a :: b :: _ =>
      match pyFloat a, pyFloat b with
      | some p, some r => (some p, some r)
      | _, _ => (none, none)
  | _ => (none, none)

end MpuPitchRoll

/-- Well-formedness of a three-field line in the sense of the spec:
after stripping, the line is exactly three comma-free fields separated by
commas, each parsing as a float. -/
def specWellFormed3 (line : Line) (y p r : ℚ) : Prop :=
  ∃ a b c : Line, strip line = a ++ ',' :: (b ++ ',' :: c) ∧
    ',' ∉ a ∧ ',' ∉ b ∧ ',' ∉ c ∧
    pyFloat a = some y ∧ pyFloat b = some p ∧ pyFloat c = some r

/-- Well-formedness of a two-field line in the sense of the spec: after
stripping, the line starts with two comma-free float fields, followed by
nothing or by further comma-separated fields that are ignored. -/
def specWellFormed2 (line : Line) (p r : ℚ) : Prop :=
  ∃ a b t : Line, strip line = a ++ ',' :: (b ++ t) ∧
    ',' ∉ a ∧ ',' ∉ b ∧ (t = [] ∨ ∃ t2, t = ',' :: t2) ∧
    pyFloat a = some p ∧ pyFloat b = some r

/-! ## Rotation matrices

Both programs build the elementary rotation matrices about the Z, Y and X
axes from angles given in degrees (`np.radians` converts to radians) and
compose them with `@`, applying the product to vertices as `v @ R.T`,
i.e. as `R.mulVec v` on column vectors. -/

noncomputable section

/-- `np.radians`: degrees to radians. -/
def radians (d : ℝ) : ℝ := d * Real.pi / 180

/-- Elementary rotation about the Z axis (matrix `Rz` in both files). -/
def Rz (y : ℝ) : Matrix (Fin 3) (Fin 3) ℝ :=
  !![Real.cos y, -Real.sin y, 0;
     Real.sin y,  Real.cos y, 0;
     0, 0, 1]

/-- Elementary rotation about the Y axis (matrix `Ry` in both files). -/
def Ry (p : ℝ) : Matrix (Fin 3) (Fin 3) ℝ :=
  !![Real.cos p, 0, Real.sin p;
     0, 1, 0;
     -Real.sin p, 0, Real.cos p]

/-- Elementary rotation about the X axis (matrix `Rx` in both files). -/
def Rx (r : ℝ) : Matrix (Fin 3) (Fin 3) ℝ :=
  !![1, 0, 0;
     0, Real.cos r, -Real.sin r;
     0, Real.sin r,  Real.cos r]

namespace Mpu3d

/-- `rotation_matrix` of `mpu60503d.py`: `Rz @ Ry @ Rx` on the angles
converted from degrees to radians. -/
def rotation_matrix (yaw pitch roll : ℝ) : Matrix (Fin 3) (Fin 3) ℝ :=
  Rz (radians yaw) * Ry (radians pitch) * Rx (radians roll)

end Mpu3d

namespace MpuPitchRoll

/-- `rotation_matrix` of `mpu_pitch_roll.py`: `Ry @ Rx` (roll then pitch)
on the angles converted from degrees to radians. -/
def rotation_matrix (pitch roll : ℝ) : Matrix (Fin 3) (Fin 3) ℝ :=
  Ry (radians pitch) * Rx (radians roll)

end MpuPitchRoll

/-! ## Mesh factories (`mpu60503d.py`) -/

namespace Mpu3d

/-- Grid vertex `verts[i, j]` of `create_sphere`: `np.mgrid` with a complex
step yields `res` evenly spaced samples including both endpoints, so
`phi = i * pi / (res - 1)` and `theta = j * 2 pi / (res - 1)`. -/
def sphereVert (center : ℝ × ℝ × ℝ) (radius : ℝ) (res i j : ℕ) : ℝ × ℝ × ℝ :=
  let phi := (i : ℝ) * Real.pi / ((res : ℝ) - 1)
  let theta := (j : ℝ) * (2 * Real.pi) / ((res : ℝ) - 1)
  (center.1 + radius * Real.sin phi * Real.cos theta,
   center.2.1 + radius * Real.sin phi * Real.sin theta,
   center.2.2 + radius * Real.cos phi)

/-- `create_sphere`: one quadrilateral face per grid cell, appended in row
major order exactly as the nested Python loops do. -/
def create_sphere (center : ℝ × ℝ × ℝ) (radius : ℝ) (res : ℕ) :
    List (List (ℝ × ℝ × ℝ)) :=
  (List.range (res - 1)).flatMap (fun i =>
    (List.range (res - 1)).map (fun j =>
      [sphereVert center radius res i j,
       sphereVert center radius res (i + 1) j,
       sphereVert center radius res (i + 1) (j + 1),
       sphereVert center radius res i (j + 1)]))

/-- Base circle point `i` of `create_cone`: `np.linspace(0, 2*pi, res,
endpoint=False)` gives `theta = i * 2 pi / res`. -/
def coneBasePt (base : ℝ × ℝ × ℝ) (radius : ℝ) (res i : ℕ) : ℝ × ℝ × ℝ :=
  let theta := (i : ℝ) * (2 * Real.pi) / (res : ℝ)
  (base.1 + radius * Real.cos theta, base.2.1 + radius * Real.sin theta, base.2.2)

/-- Apex (`tip`) of `create_cone`. -/
def coneApex (base : ℝ × ℝ × ℝ) (height : ℝ) : ℝ × ℝ × ℝ :=
  (base.1, base.2.1, base.2.2 + height)

/-- `create_cone`: `res` triangles, face `i` spanning base points `i` and
`(i+1) % res` together with the apex. -/
def create_cone (base : ℝ × ℝ × ℝ) (height radius : ℝ) (res : ℕ) :
    List (List (ℝ × ℝ × ℝ)) :=
  (List.range res).map (fun i =>
    [coneBasePt base radius res i, coneBasePt base radius res ((i + 1) % res),
     coneApex base height])

end Mpu3d

end

/-! ## Sample buffer

`mpu_pitch_roll.py` keeps each buffer bounded by appending and popping the
front element whenever the length exceeds `WINDOW`; `pitch_buf[-1]` guarded
by an emptiness test is the `latest` selection. -/

/-- One bounded push: append at the back, evict the front element when the
length exceeds the capacity `w` (`append` then conditional `pop(0)`). -/
def pushWindow {α : Type} (w : ℕ) (buf : List α) (x : α) : List α :=
  if w < (buf ++ [x]).length then (buf ++ [x]).tail else buf ++ [x]

/-- Most recent sample, or `none` when the buffer is empty
(`buf[-1]` guarded by `if not buf`). -/
def latest {α : Type} (buf : List α) : Option α := buf.getLast?

/-! ## Update schedulers

The serial byte source is modelled as a list of pending lines; each
`ser.readline()` consumes the head (an exhausted or silent source yields
the empty line, as a timed out read returns an empty byte string). -/

namespace Mpu3d

/-- The bounded read burst of `update` in `mpu60503d.py`: up to `fuel`
reads, stopping as soon as a parsed line has a non-`None` yaw.  Returns the
parse result, the remaining source and the number of reads performed. -/
def burst : ℕ → List Line → (Option ℚ × Option ℚ × Option ℚ) × List Line × ℕ
  | 0, src => ((none, none, none), src, 0)
  | n + 1, src =>
      if ((parse_line (src.headD [])).1).isSome then (parse_line (src.headD []), src.tail, 1)
      else
        ((burst n src.tail).1, (burst n src.tail).2.1, (burst n src.tail).2.2 + 1)

end Mpu3d

namespace MpuPitchRoll

/-- One loop iteration of `update` in `mpu_pitch_roll.py`: an empty read is
skipped (`if not raw: continue`), a decoded line appends to both buffers
and evicts both fronts when `pitch_buf` exceeds `WINDOW`.  The fallthrough
cases with exactly one `some` are unreachable: `parse_line` is
all-or-nothing (`parse_line_cases` below). -/
def step (raw : Line) (bufs : List ℚ × List ℚ) : List ℚ × List ℚ :=
  if raw = [] then bufs
  else
    match parse_line raw with
    | (some p, some r) =>
        let pb := bufs.1 ++ [p]
        let rb := bufs.2 ++ [r]
        if WINDOW < pb.length then (pb.tail, rb.tail) else (pb, rb)
    | _ => bufs

/-- The read burst of `update` in `mpu_pitch_roll.py`: always performs
`fuel` reads (the loop has no early exit), folding `step` over the lines
obtained.  Returns the buffers, the remaining source and the read count. -/
def burst : ℕ → List Line → (List ℚ × List ℚ) → (List ℚ × List ℚ) × List Line × ℕ
  | 0, src, bufs => (bufs, src, 0)
  | n + 1, src, bufs =>
      ((burst n src.tail (step (src.headD []) bufs)).1,
       (burst n src.tail (step (src.headD []) bufs)).2.1,
       (burst n src.tail (step (src.headD []) bufs)).2.2 + 1)

/-- `update` of `mpu_pitch_roll.py`, state-passing model: five reads, then
either skip (empty `pitch_buf`) or emit the latest pitch/roll pair to the
rendering step.  The `getLastD` defaults are never used: the two buffers
stay in lockstep (`buffers_lockstep` below), so a non-empty `pitch_buf`
comes with a non-empty `roll_buf`. -/
def update (src : List Line) (bufs : List ℚ × List ℚ) :
    (List ℚ × List ℚ) × Option (ℚ × ℚ) × List Line × ℕ :=
  if (burst 5 src bufs).1.1.isEmpty then
    ((burst 5 src bufs).1, none, (burst 5 src bufs).2.1, (burst 5 src bufs).2.2)
  else
    ((burst 5 src bufs).1,
     some ((burst 5 src bufs).1.1.getLastD 0, (burst 5 src bufs).1.2.getLastD 0),
     (burst 5 src bufs).2.1, (burst 5 src bufs).2.2)

/-- Lockstep abstraction for the pair of buffers: the same iteration acting
on one list of pitch/roll pairs. -/
def pairedStep (raw : Line) (l : List (ℚ × ℚ)) : List (ℚ × ℚ) :=
  if raw = [] then l
  else
    match parse_line raw with
    | (some p, some r) => pushWindow WINDOW l (p, r)
    | _ => l

/-- Lockstep abstraction of `burst`. -/
def pairedBurst : ℕ → List Line → List (ℚ × ℚ) → List (ℚ × ℚ)
  | 0, _, l => l
  | n + 1, src, l => pairedBurst n src.tail (pairedStep (src.headD []) l)

end MpuPitchRoll

noncomputable section

abbrev V3 := Fin 3 → ℝ

namespace Mpu3d

/-- A `Poly3DCollection` vertex buffer: a list of faces, each a list of
3D vertices. -/
abbrev Mesh := List (List V3)

/-- `rotate_poly` of `update` in `mpu60503d.py`: reads the current
vertices of the collection and overwrites them with `v @ R.T`, i.e.
`R.mulVec v` applied to every vertex of every face. -/
def rotate_poly (R : Matrix (Fin 3) (Fin 3) ℝ) (m : Mesh) : Mesh :=
  m.map (fun face => face.map R.mulVec)

/-- `update` of `mpu60503d.py`, state-passing model over the current
vertex buffers of the three collections: a burst of at most three reads,
then either skip (`return` from the for-else) or rotate the current
vertices of every collection by the freshly computed matrix.  The catchall branch is
reached only with a `None` yaw: `parse_line` is all-or-nothing
(`parse_line_cases` below). -/
def update (src : List Line) (meshes : List Mesh) :
    List Mesh × Option (ℚ × ℚ × ℚ) × List Line × ℕ :=
  match burst 3 src with
  | ((some y, some p, some r), rest, k) =>
      (meshes.map (rotate_poly (rotation_matrix (y : ℝ) (p : ℝ) (r : ℝ))),
       some (y, p, r), rest, k)
  | (_, rest, k) => (meshes, none, rest, k)

end Mpu3d

namespace MpuPitchRoll

/-- `cube_definition` of `mpu_pitch_roll.py`: the eight corners of the
flat box, `-0.1` and `0.1` written as `-(1/10)` and `1/10`. -/
def cube_definition : List V3 :=
  [![-1, -1, -(1/10)], ![-1,  1, -(1/10)], ![1,  1, -(1/10)], ![1, -1, -(1/10)],
   ![-1, -1,   1/10 ], ![-1,  1,   1/10 ], ![1,  1,   1/10 ], ![1, -1,   1/10 ]]

/-- `edges` of `mpu_pitch_roll.py`: twelve index pairs into
`cube_definition`. -/
def edges : List (ℕ × ℕ) :=
  [(0, 1), (1, 2), (2, 3), (3, 0),
   (4, 5), (5, 6), (6, 7), (7, 4),
   (0, 4), (1, 5), (2, 6), (3, 7)]

/-- The rendering step of `update`: `rotated = cube_definition @ R.T`,
i.e. the rotation applied to the fixed cube topology. -/
def render (pr : ℚ × ℚ) : List V3 :=
  cube_definition.map (rotation_matrix (pr.1 : ℝ) (pr.2 : ℝ)).mulVec

end MpuPitchRoll

end

/-! ## Parsing lemmas -/

theorem splitOnComma_ne_nil (s : Line) : splitOnComma s ≠ [] := by
  induction s with
  | nil => simp [splitOnComma]
  | cons c rest ih =>
      simp only [splitOnComma]
      split
      · simp
      · cases h : splitOnComma rest with
        | nil => exact absurd h ih
        | cons f fs => simp

theorem splitOnComma_no_comma (s : Line) :
    ∀ f ∈ splitOnComma s, ',' ∉ f := by
  induction s with
  | nil => simp [splitOnComma]
  | cons c rest ih =>
      intro f hf
      simp only [splitOnComma] at hf
      by_cases hc : c = ','
      · simp [hc] at hf
        rcases hf with rfl | hf
        · simp
        · exact ih f hf
      · simp only [if_neg hc] at hf
        cases h : splitOnComma rest with
        | nil => exact absurd h (splitOnComma_ne_nil rest)
        | cons g gs =>
            rw [h] at hf
            rcases List.mem_cons.mp hf with rfl | hf
            · intro hmem
              rcases List.mem_cons.mp hmem with rfl | hmem
              · exact hc rfl
              · exact ih g (h ▸ List.mem_cons_self g gs) hmem
            · exact ih f (h ▸ List.mem_cons_of_mem g hf)

theorem joinComma_splitOnComma (s : Line) : joinComma (splitOnComma s) = s := by
  induction s with
  | nil => simp [splitOnComma, joinComma]
  | cons c rest ih =>
      simp only [splitOnComma]
      by_cases hc : c = ','
      · subst hc
        rw [if_pos rfl]
        cases h : splitOnComma rest with
        | nil => exact absurd h (splitOnComma_ne_nil rest)
        | cons g gs =>
            rw [h] at ih
            simp [joinComma, ih]
      · rw [if_neg hc]
        cases h : splitOnComma rest with
        | nil => exact absurd h (splitOnComma_ne_nil rest)
        | cons g gs =>
            rw [h] at ih
            cases gs with
            | nil => simpa [joinComma] using ih
            | cons g2 gs2 => simpa [joinComma] using ih

theorem splitOnComma_of_not_mem (a : Line) (h : ',' ∉ a) : splitOnComma a = [a] := by
  induction a with
  | nil => rfl
  | cons c rest ih =>
      have hc : c ≠ ',' := fun e => h (e ▸ List.mem_cons_self c rest)
      have hr : ',' ∉ rest := fun e => h (List.mem_cons_of_mem c e)
      simp only [splitOnComma, if_neg hc, ih hr]

theorem splitOnComma_append (a t : Line) (h : ',' ∉ a) :
    splitOnComma (a ++ ',' :: t) = a :: splitOnComma t := by
  induction a with
  | nil => simp [splitOnComma]
  | cons c rest ih =>
      have hc : c ≠ ',' := fun e => h (e ▸ List.mem_cons_self c rest)
      have hr : ',' ∉ rest := fun e => h (List.mem_cons_of_mem c e)
      simp only [List.cons_append, splitOnComma, if_neg hc, List.append_eq, ih hr]

/-- Decode failure is all-or-nothing in both decoders: either every
component is `some` or every component is `none`. -/
theorem parse_line_cases (line : Line) :
    (Mpu3d.parse_line line = (none, none, none) ∨
      ∃ y p r : ℚ, Mpu3d.parse_line line = (some y, some p, some r)) ∧
    (MpuPitchRoll.parse_line line = (none, none) ∨
      ∃ p r : ℚ, MpuPitchRoll.parse_line line = (some p, some r)) := by
  constructor
  · unfold Mpu3d.parse_line
    split
    · split
      · exact Or.inr ⟨_, _, _, rfl⟩
      · exact Or.inl rfl
    · exact Or.inl rfl
  · unfold MpuPitchRoll.parse_line
    split
    · split
      · exact Or.inr ⟨_, _, rfl⟩
      · exact Or.inl rfl
    · exact Or.inl rfl

theorem parse_line3_iff (line : Line) (y p r : ℚ) :
    Mpu3d.parse_line line = (some y, some p, some r) ↔ specWellFormed3 line y p r := by
  constructor
  · intro h
    unfold Mpu3d.parse_line at h
    split at h
    · rename_i a b c heq
      split at h
      · rename_i y2 p2 r2 ha hb hc
        obtain ⟨rfl, rfl, rfl⟩ : y2 = y ∧ p2 = p ∧ r2 = r := by
          simpa [Prod.ext_iff] using h
        refine ⟨a, b, c, ?_, ?_, ?_, ?_, ha, hb, hc⟩
        · have hj := joinComma_splitOnComma (strip line)
          rw [heq] at hj
          simpa [joinComma] using hj.symm
        · exact splitOnComma_no_comma _ a (by rw [heq]; simp)
        · exact splitOnComma_no_comma _ b (by rw [heq]; simp)
        · exact splitOnComma_no_comma _ c (by rw [heq]; simp)
      · simp [Prod.ext_iff] at h
    · simp [Prod.ext_iff] at h
  · rintro ⟨a, b, c, hdec, hna, hnb, hnc, ha, hb, hc⟩
    unfold Mpu3d.parse_line
    rw [hdec, splitOnComma_append a _ hna, splitOnComma_append b _ hnb,
      splitOnComma_of_not_mem c hnc]
    simp [ha, hb, hc]

theorem parse_line2_iff (line : Line) (p r : ℚ) :
    MpuPitchRoll.parse_line line = (some p, some r) ↔ specWellFormed2 line p r := by
  constructor
  · intro h
    unfold MpuPitchRoll.parse_line at h
    split at h
    · rename_i a b rest heq
      split at h
      · rename_i p2 r2 ha hb
        obtain ⟨rfl, rfl⟩ : p2 = p ∧ r2 = r := by
          simpa [Prod.ext_iff] using h
        have hj := joinComma_splitOnComma (strip line)
        rw [heq] at hj
        have hna : ',' ∉ a := splitOnComma_no_comma _ a (by rw [heq]; simp)
        have hnb : ',' ∉ b := splitOnComma_no_comma _ b (by rw [heq]; simp)
        cases rest with
        | nil =>
            refine ⟨a, b, [], ?_, hna, hnb, Or.inl rfl, ha, hb⟩
            simpa [joinComma] using hj.symm
        | cons r1 rs =>
            refine ⟨a, b, ',' :: joinComma (r1 :: rs), ?_, hna, hnb,
              Or.inr ⟨_, rfl⟩, ha, hb⟩
            rw [← hj]
            simp [joinComma]
      · simp [Prod.ext_iff] at h
    · simp [Prod.ext_iff] at h
  · rintro ⟨a, b, t, hdec, hna, hnb, ht, ha, hb⟩
    unfold MpuPitchRoll.parse_line
    rcases ht with rfl | ⟨t2, rfl⟩
    · rw [hdec, show a ++ ',' :: (b ++ []) = a ++ ',' :: b by simp,
        splitOnComma_append a b hna, splitOnComma_of_not_mem b hnb]
      simp [ha, hb]
    · rw [hdec, splitOnComma_append a _ hna, splitOnComma_append b _ hnb]
      simp [ha, hb]

/-! ## Rotation matrix lemmas -/

theorem Rz_mul_transpose_self (t : ℝ) : Rz t * (Rz t)ᵀ = 1 := by
  ext i j
  fin_cases i <;> fin_cases j <;>
    simp [Rz, Matrix.mul_apply, Matrix.transpose_apply, Fin.sum_univ_three,
      Matrix.one_apply, Matrix.vecHead, Matrix.vecTail] <;>
    first
    | linear_combination Real.sin_sq_add_cos_sq t
    | linarith [Real.sin_sq_add_cos_sq t]

theorem Ry_mul_transpose_self (t : ℝ) : Ry t * (Ry t)ᵀ = 1 := by
  ext i j
  fin_cases i <;> fin_cases j <;>
    simp [Ry, Matrix.mul_apply, Matrix.transpose_apply, Fin.sum_univ_three,
      Matrix.one_apply, Matrix.vecHead, Matrix.vecTail] <;>
    first
    | linear_combination Real.sin_sq_add_cos_sq t
    | linarith [Real.sin_sq_add_cos_sq t]

theorem Rx_mul_transpose_self (t : ℝ) : Rx t * (Rx t)ᵀ = 1 := by
  ext i j
  fin_cases i <;> fin_cases j <;>
    simp [Rx, Matrix.mul_apply, Matrix.transpose_apply, Fin.sum_univ_three,
      Matrix.one_apply, Matrix.vecHead, Matrix.vecTail] <;>
    first
    | linear_combination Real.sin_sq_add_cos_sq t
    | linarith [Real.sin_sq_add_cos_sq t]

theorem Rz_det (t : ℝ) : (Rz t).det = 1 := by
  simp [Rz, Matrix.det_fin_three]
  linear_combination Real.sin_sq_add_cos_sq t

theorem Ry_det (t : ℝ) : (Ry t).det = 1 := by
  simp [Ry, Matrix.det_fin_three]
  linear_combination Real.sin_sq_add_cos_sq t

theorem Rx_det (t : ℝ) : (Rx t).det = 1 := by
  simp [Rx, Matrix.det_fin_three]
  linear_combination Real.sin_sq_add_cos_sq t

theorem mul_transpose_self_of (A B : Matrix (Fin 3) (Fin 3) ℝ)
    (hA : A * Aᵀ = 1) (hB : B * Bᵀ = 1) : (A * B) * (A * B)ᵀ = 1 := by
  rw [Matrix.transpose_mul, Matrix.mul_assoc, ← Matrix.mul_assoc B, hB,
    Matrix.one_mul, hA]

theorem radians_zero : radians 0 = 0 := by simp [radians]

theorem radians_ninety : radians 90 = Real.pi / 2 := by unfold radians; ring

theorem Ry_zero : Ry 0 = 1 := by
  ext i j
  fin_cases i <;> fin_cases j <;>
    simp [Ry, Matrix.one_apply, Matrix.vecHead, Matrix.vecTail]

theorem Rx_zero : Rx 0 = 1 := by
  ext i j
  fin_cases i <;> fin_cases j <;>
    simp [Rx, Matrix.one_apply, Matrix.vecHead, Matrix.vecTail]

theorem rot3_ninety : Mpu3d.rotation_matrix 90 0 0 = Rz (Real.pi / 2) := by
  rw [Mpu3d.rotation_matrix, radians_zero, radians_ninety, Ry_zero, Rx_zero,
    Matrix.mul_one, Matrix.mul_one]

theorem rot3_ninety_mulVec :
    (Mpu3d.rotation_matrix 90 0 0).mulVec ![1, 0, 0] = ![0, 1, 0] := by
  rw [rot3_ninety]
  ext i
  fin_cases i <;>
    simp [Rz, Matrix.mulVec, Matrix.dotProduct, Fin.sum_univ_three]

/-! ## Claims C4 to C7 -/

/-- Claim C4: for every yaw, pitch and roll, the matrix returned by
`rotation_matrix` is orthonormal in both variants: `R * Rᵀ = 1` and
`det R = 1` exactly over the reals. -/
theorem claim_C4_rotation_orthonormal (yaw pitch roll : ℝ) :
    Mpu3d.rotation_matrix yaw pitch roll *
      (Mpu3d.rotation_matrix yaw pitch roll)ᵀ = 1 ∧
    (Mpu3d.rotation_matrix yaw pitch roll).det = 1 ∧
    MpuPitchRoll.rotation_matrix pitch roll *
      (MpuPitchRoll.rotation_matrix pitch roll)ᵀ = 1 ∧
    (MpuPitchRoll.rotation_matrix pitch roll).det = 1 := by
  refine ⟨?_, ?_, ?_, ?_⟩
  · exact mul_transpose_self_of _ _
      (mul_transpose_self_of _ _ (Rz_mul_transpose_self _) (Ry_mul_transpose_self _))
      (Rx_mul_transpose_self _)
  · simp [Mpu3d.rotation_matrix, Matrix.det_mul, Rz_det, Ry_det, Rx_det]
  · exact mul_transpose_self_of _ _ (Ry_mul_transpose_self _) (Rx_mul_transpose_self _)
  · simp [MpuPitchRoll.rotation_matrix, Matrix.det_mul, Ry_det, Rx_det]

/-- Claim C5: the composition order is `Rz * Ry * Rx` in the 3-axis
variant (yaw outermost) and `Ry * Rx` in the 2-axis variant (roll first),
and the 3-axis matrix for yaw 90, pitch 0, roll 0 maps `(1,0,0)` to
`(0,1,0)`. -/
theorem claim_C5_composition_order (yaw pitch roll : ℝ) (v : V3) :
    Mpu3d.rotation_matrix yaw pitch roll =
      Rz (radians yaw) * Ry (radians pitch) * Rx (radians roll) ∧
    (Mpu3d.rotation_matrix yaw pitch roll).mulVec v =
      (Rz (radians yaw)).mulVec ((Ry (radians pitch)).mulVec
        ((Rx (radians roll)).mulVec v)) ∧
    MpuPitchRoll.rotation_matrix pitch roll =
      Ry (radians pitch) * Rx (radians roll) ∧
    (MpuPitchRoll.rotation_matrix pitch roll).mulVec v =
      (Ry (radians pitch)).mulVec ((Rx (radians roll)).mulVec v) ∧
    (Mpu3d.rotation_matrix 90 0 0).mulVec ![1, 0, 0] = ![0, 1, 0] := by
  refine ⟨rfl, ?_, rfl, ?_, rot3_ninety_mulVec⟩
  · rw [Mpu3d.rotation_matrix, ← Matrix.mulVec_mulVec, ← Matrix.mulVec_mulVec]
  · rw [MpuPitchRoll.rotation_matrix, ← Matrix.mulVec_mulVec]

/-- Claim C6: both decoders are total with all-or-nothing output: a line
decodes to values exactly when it is well formed for the configured mode
(three comma-separated float fields, resp. at least two with extras
ignored), every malformed line (including the empty line) yields the
uniform failure value, and a well-formed line yields exactly its parsed
field values, e.g. `10.5,-3.2,90.0`. -/
theorem claim_C6_parse_line_total (line : Line) (y p r : ℚ) :
    (Mpu3d.parse_line line = (none, none, none) ∨
      ∃ a b c : ℚ, Mpu3d.parse_line line = (some a, some b, some c)) ∧
    (Mpu3d.parse_line line = (some y, some p, some r) ↔ specWellFormed3 line y p r) ∧
    (MpuPitchRoll.parse_line line = (none, none) ∨
      ∃ a b : ℚ, MpuPitchRoll.parse_line line = (some a, some b)) ∧
    (MpuPitchRoll.parse_line line = (some y, some p) ↔ specWellFormed2 line y p) ∧
    Mpu3d.parse_line [] = (none, none, none) ∧
    MpuPitchRoll.parse_line [] = (none, none) ∧
    Mpu3d.parse_line ['1', '0', '.', '5', ',', '-', '3', '.', '2', ',', '9', '0', '.', '0'] =
      (some (21 / 2), some (-16 / 5), some 90) := by
  refine ⟨(parse_line_cases line).1, parse_line3_iff line y p r,
    (parse_line_cases line).2, parse_line2_iff line y p, rfl, rfl, ?_⟩
  simp +decide [Mpu3d.parse_line, splitOnComma, strip, isPySpace, pyFloat,
    parseMantissa, parseExp, digitsToNat]
  norm_num

/-- Claim C7: a push never grows the buffer beyond the capacity, a push
into a full buffer evicts the front element (strict FIFO), pushing
`a, b, c, d` into an empty capacity-3 buffer leaves `[b, c, d]` with
`latest` returning `d`, and `latest` of the empty buffer signals no
data. -/
theorem claim_C7_sample_buffer (w : ℕ) (buf : List ℚ) (x a b c d : ℚ)
    (hlen : buf.length ≤ w) :
    (pushWindow w buf x).length ≤ w ∧
    (buf.length = w → 0 < w → pushWindow w buf x = buf.tail ++ [x]) ∧
    List.foldl (pushWindow 3) [] [a, b, c, d] = [b, c, d] ∧
    latest (List.foldl (pushWindow 3) [] [a, b, c, d]) = some d ∧
    latest ([] : List ℚ) = none := by
  refine ⟨?_, ?_, ?_, ?_, rfl⟩
  · unfold pushWindow
    split
    · simpa using hlen
    · rename_i hcond
      simpa using Nat.not_lt.mp hcond
  · intro hfull hw
    unfold pushWindow
    rw [if_pos (by simp [hfull])]
    cases buf with
    | nil => simp at hfull; omega
    | cons z zs => rfl
  · simp [pushWindow, latest]
  · simp [pushWindow, latest]

/-- Concrete instance of `claim_C7_sample_buffer` at capacity 3 with a
full buffer. -/
theorem claim_C7_sample_buffer_witness :
    ([(5 : ℚ), 6, 7] : List ℚ).length ≤ 3 ∧
    ((pushWindow 3 [(5 : ℚ), 6, 7] 8).length ≤ 3 ∧
    (([(5 : ℚ), 6, 7] : List ℚ).length = 3 → 0 < 3 →
      pushWindow 3 [(5 : ℚ), 6, 7] 8 = [(5 : ℚ), 6, 7].tail ++ [8]) ∧
    List.foldl (pushWindow 3) [] [(1 : ℚ), 2, 3, 4] = [2, 3, 4] ∧
    latest (List.foldl (pushWindow 3) [] [(1 : ℚ), 2, 3, 4]) = some 4 ∧
    latest ([] : List ℚ) = none) :=
  ⟨by simp, claim_C7_sample_buffer 3 [5, 6, 7] 8 1 2 3 4 (by simp)⟩

/-! ## Claims C8 and C9 -/

/-- Claim C8: for every resolution at least 2, `create_sphere` returns
exactly `(res - 1)^2` faces, each a quadrilateral of four vertices taken
from the `res` by `res` latitude/longitude grid. -/
theorem claim_C8_sphere_faces (center : ℝ × ℝ × ℝ) (radius : ℝ) (res : ℕ)
    (h : 2 ≤ res) :
    (Mpu3d.create_sphere center radius res).length = (res - 1) ^ 2 ∧
    ∀ q ∈ Mpu3d.create_sphere center radius res, q.length = 4 ∧
      ∃ i j, i + 1 < res ∧ j + 1 < res ∧
        q = [Mpu3d.sphereVert center radius res i j,
             Mpu3d.sphereVert center radius res (i + 1) j,
             Mpu3d.sphereVert center radius res (i + 1) (j + 1),
             Mpu3d.sphereVert center radius res i (j + 1)] := by
  constructor
  · simp [Mpu3d.create_sphere, List.length_flatMap, Function.comp_def,
      List.map_const', List.sum_replicate, smul_eq_mul, sq]
  · intro q hq
    simp only [Mpu3d.create_sphere, List.mem_flatMap, List.mem_map,
      List.mem_range] at hq
    obtain ⟨i, hi, j, hj, rfl⟩ := hq
    exact ⟨rfl, i, j, by omega, by omega, rfl⟩

/-- Concrete instance of `claim_C8_sphere_faces` at resolution 4. -/
theorem claim_C8_sphere_faces_witness :
    2 ≤ 4 ∧
    ((Mpu3d.create_sphere (0, 0, 0) 1 4).length = (4 - 1) ^ 2 ∧
    ∀ q ∈ Mpu3d.create_sphere (0, 0, 0) 1 4, q.length = 4 ∧
      ∃ i j, i + 1 < 4 ∧ j + 1 < 4 ∧
        q = [Mpu3d.sphereVert (0, 0, 0) 1 4 i j,
             Mpu3d.sphereVert (0, 0, 0) 1 4 (i + 1) j,
             Mpu3d.sphereVert (0, 0, 0) 1 4 (i + 1) (j + 1),
             Mpu3d.sphereVert (0, 0, 0) 1 4 i (j + 1)]) :=
  ⟨by decide, claim_C8_sphere_faces (0, 0, 0) 1 4 (by decide)⟩

/-- Claim C9: for every resolution at least 1, `create_cone` returns
exactly `res` triangular faces; every face ends at the shared apex
`(base.x, base.y, base.z + height)`, face `i` spans base points `i` and
`(i+1) mod res`, and the last face wraps back to base point 0. -/
theorem claim_C9_cone_faces (base : ℝ × ℝ × ℝ) (height radius : ℝ) (res : ℕ)
    (h : 1 ≤ res) :
    (Mpu3d.create_cone base height radius res).length = res ∧
    (∀ f ∈ Mpu3d.create_cone base height radius res, f.length = 3 ∧
      f.getLast? = some (Mpu3d.coneApex base height) ∧
      ∃ i, i < res ∧ f = [Mpu3d.coneBasePt base radius res i,
        Mpu3d.coneBasePt base radius res ((i + 1) % res),
        Mpu3d.coneApex base height]) ∧
    (Mpu3d.create_cone base height radius res).getLast? =
      some [Mpu3d.coneBasePt base radius res (res - 1),
        Mpu3d.coneBasePt base radius res 0, Mpu3d.coneApex base height] := by
  refine ⟨by simp [Mpu3d.create_cone], ?_, ?_⟩
  · intro f hf
    simp only [Mpu3d.create_cone, List.mem_map, List.mem_range] at hf
    obtain ⟨i, hi, rfl⟩ := hf
    exact ⟨rfl, rfl, i, hi, rfl⟩
  · obtain ⟨m, rfl⟩ : ∃ m, res = m + 1 := ⟨res - 1, by omega⟩
    rw [Mpu3d.create_cone, List.range_succ, List.map_append, List.getLast?_append,
      List.map_singleton, List.getLast?_singleton]
    simp [Nat.mod_self]

/-- Concrete instance of `claim_C9_cone_faces` at resolution 6. -/
theorem claim_C9_cone_faces_witness :
    1 ≤ 6 ∧
    ((Mpu3d.create_cone (0, 0, 0) 1 1 6).length = 6 ∧
    (∀ f ∈ Mpu3d.create_cone (0, 0, 0) 1 1 6, f.length = 3 ∧
      f.getLast? = some (Mpu3d.coneApex (0, 0, 0) 1) ∧
      ∃ i, i < 6 ∧ f = [Mpu3d.coneBasePt (0, 0, 0) 1 6 i,
        Mpu3d.coneBasePt (0, 0, 0) 1 6 ((i + 1) % 6),
        Mpu3d.coneApex (0, 0, 0) 1]) ∧
    (Mpu3d.create_cone (0, 0, 0) 1 1 6).getLast? =
      some [Mpu3d.coneBasePt (0, 0, 0) 1 6 (6 - 1),
        Mpu3d.coneBasePt (0, 0, 0) 1 6 0, Mpu3d.coneApex (0, 0, 0) 1]) :=
  ⟨by decide, claim_C9_cone_faces (0, 0, 0) 1 1 6 (by decide)⟩

/-! ## Burst lemmas for the schedulers -/

theorem getD_tail (src : List Line) (i : ℕ) :
    src.tail.getD i [] = src.getD (i + 1) [] := by
  cases src <;> simp

/-- In the 3-axis burst, if the lines before position `j` fail to decode
and position `j` succeeds, the burst stops there: it performs exactly
`j + 1` reads and returns that parse result. -/
theorem burst3_stops (fuel j : ℕ) (src : List Line)
    (hj : j < fuel)
    (hfail : ∀ i, i < j → (Mpu3d.parse_line (src.getD i [])).1 = none)
    (hsucc : ((Mpu3d.parse_line (src.getD j [])).1).isSome) :
    Mpu3d.burst fuel src = (Mpu3d.parse_line (src.getD j []), src.drop (j + 1), j + 1) := by
  induction j generalizing fuel src with
  | zero =>
      obtain ⟨n, rfl⟩ : ∃ n, fuel = n + 1 := ⟨fuel - 1, by omega⟩
      have hhead : src.getD 0 [] = src.headD [] := by cases src <;> rfl
      rw [hhead] at hsucc ⊢
      unfold Mpu3d.burst
      rw [if_pos hsucc]
      cases src <;> rfl
  | succ j ih =>
      obtain ⟨n, rfl⟩ : ∃ n, fuel = n + 1 := ⟨fuel - 1, by omega⟩
      have hhead : src.getD 0 [] = src.headD [] := by cases src <;> rfl
      have h0 : ¬ ((Mpu3d.parse_line (src.headD [])).1).isSome := by
        rw [← hhead, hfail 0 (by omega)]
        simp
      unfold Mpu3d.burst
      rw [if_neg h0]
      have ihr := ih n src.tail (by omega)
        (fun i hi => by rw [getD_tail]; exact hfail (i + 1) (by omega))
        (by rw [getD_tail]; exact hsucc)
      have hd : src.tail.drop (j + 1) = src.drop (j + 1 + 1) := by
        rw [← List.drop_one, List.drop_drop]
        congr 1
        omega
      rw [ihr, getD_tail, hd]

/-- In the 3-axis burst, if every position up to the budget fails to
decode, the burst performs all `fuel` reads and reports failure. -/
theorem burst3_all_fail (fuel : ℕ) (src : List Line)
    (hfail : ∀ i, i < fuel → (Mpu3d.parse_line (src.getD i [])).1 = none) :
    Mpu3d.burst fuel src = ((none, none, none), src.drop fuel, fuel) := by
  induction fuel generalizing src with
  | zero => simp [Mpu3d.burst]
  | succ n ih =>
      have hhead : src.getD 0 [] = src.headD [] := by cases src <;> rfl
      have h0 : ¬ ((Mpu3d.parse_line (src.headD [])).1).isSome := by
        rw [← hhead, hfail 0 (by omega)]
        simp
      unfold Mpu3d.burst
      rw [if_neg h0]
      have hd : src.tail.drop n = src.drop (n + 1) := by
        rw [← List.drop_one, List.drop_drop]
        congr 1
        omega
      rw [ih src.tail (fun i hi => by rw [getD_tail]; exact hfail (i + 1) (by omega)), hd]

/-- The 2-axis burst always performs exactly `fuel` reads, with no early
exit, consuming `fuel` lines from the source. -/
theorem burst2_reads (fuel : ℕ) (src : List Line) (bufs : List ℚ × List ℚ) :
    (MpuPitchRoll.burst fuel src bufs).2.1 = src.drop fuel ∧
    (MpuPitchRoll.burst fuel src bufs).2.2 = fuel := by
  induction fuel generalizing src bufs with
  | zero => simp [MpuPitchRoll.burst]
  | succ n ih =>
      obtain ⟨h1, h2⟩ := ih src.tail (MpuPitchRoll.step (src.headD []) bufs)
      have hd : src.tail.drop n = src.drop (n + 1) := by
        rw [← List.drop_one, List.drop_drop]
        congr 1
        omega
      unfold MpuPitchRoll.burst
      exact ⟨by rw [h1, hd], by rw [h2]⟩

/-! ## Lockstep of the two buffers (2-axis variant) -/

theorem map_tail_comm {α β : Type} (f : α → β) (l : List α) :
    (l.map f).tail = l.tail.map f := by
  cases l <;> rfl

/-- One 2-axis loop iteration preserves the pairing of the two buffers:
acting on the projections of a list of pairs is the projection of acting
on the pairs. -/
theorem step_paired (raw : Line) (l : List (ℚ × ℚ)) :
    MpuPitchRoll.step raw (l.map Prod.fst, l.map Prod.snd) =
      ((MpuPitchRoll.pairedStep raw l).map Prod.fst,
       (MpuPitchRoll.pairedStep raw l).map Prod.snd) := by
  unfold MpuPitchRoll.step MpuPitchRoll.pairedStep
  by_cases hraw : raw = []
  · simp [hraw]
  · rw [if_neg hraw, if_neg hraw]
    rcases (parse_line_cases raw).2 with h | ⟨p, r, h⟩
    · rw [h]
    · rw [h]
      by_cases hc : MpuPitchRoll.WINDOW < l.length + 1
      · simp [pushWindow, hc, map_tail_comm]
      · simp [pushWindow, hc]

/-- The burst preserves the pairing of the two buffers. -/
theorem burst_paired (fuel : ℕ) (src : List Line) (l : List (ℚ × ℚ)) :
    (MpuPitchRoll.burst fuel src (l.map Prod.fst, l.map Prod.snd)).1 =
      ((MpuPitchRoll.pairedBurst fuel src l).map Prod.fst,
       (MpuPitchRoll.pairedBurst fuel src l).map Prod.snd) := by
  induction fuel generalizing src l with
  | zero => simp [MpuPitchRoll.burst, MpuPitchRoll.pairedBurst]
  | succ n ih =>
      unfold MpuPitchRoll.burst MpuPitchRoll.pairedBurst
      rw [step_paired, ih]

theorem update2_bufs (src : List Line) (bufs : List ℚ × List ℚ) :
    (MpuPitchRoll.update src bufs).1 = (MpuPitchRoll.burst 5 src bufs).1 := by
  unfold MpuPitchRoll.update
  split <;> rfl

theorem update2_emit (src : List Line) (bufs : List ℚ × List ℚ) :
    (MpuPitchRoll.update src bufs).2.1 =
      if (MpuPitchRoll.burst 5 src bufs).1.1.isEmpty then none
      else some ((MpuPitchRoll.burst 5 src bufs).1.1.getLastD 0,
        (MpuPitchRoll.burst 5 src bufs).1.2.getLastD 0) := by
  unfold MpuPitchRoll.update
  split <;> rfl

/-- Claim C10: the 2-axis update keeps `pitch_buf` and `roll_buf` in
lockstep: started from the projections of any list of pitch/roll pairs,
the tick leaves the projections of a list of pairs (each pair from one
decoded line), and in particular the two buffers always have equal
length. -/
theorem claim_C10_buffers_lockstep (src : List Line) (l : List (ℚ × ℚ)) :
    (MpuPitchRoll.update src (l.map Prod.fst, l.map Prod.snd)).1 =
      ((MpuPitchRoll.pairedBurst 5 src l).map Prod.fst,
       (MpuPitchRoll.pairedBurst 5 src l).map Prod.snd) ∧
    (MpuPitchRoll.update src (l.map Prod.fst, l.map Prod.snd)).1.1.length =
      (MpuPitchRoll.update src (l.map Prod.fst, l.map Prod.snd)).1.2.length := by
  have h := burst_paired 5 src l
  rw [update2_bufs, h]
  exact ⟨rfl, by simp⟩

theorem step_skip (raw : Line) (bufs : List ℚ × List ℚ)
    (h : raw = [] ∨ (MpuPitchRoll.parse_line raw).1 = none) :
    MpuPitchRoll.step raw bufs = bufs := by
  unfold MpuPitchRoll.step
  by_cases hraw : raw = []
  · rw [if_pos hraw]
  · rw [if_neg hraw]
    rcases (parse_line_cases raw).2 with h2 | ⟨p, r, h2⟩
    · rw [h2]
    · rcases h with rfl | h
      · exact absurd rfl hraw
      · rw [h2] at h
        simp at h

theorem burst2_all_fail (fuel : ℕ) (src : List Line) (bufs : List ℚ × List ℚ)
    (hfail : ∀ i, i < fuel →
      src.getD i [] = [] ∨ (MpuPitchRoll.parse_line (src.getD i [])).1 = none) :
    (MpuPitchRoll.burst fuel src bufs).1 = bufs := by
  induction fuel generalizing src bufs with
  | zero => rfl
  | succ n ih =>
      have h0 := hfail 0 (by omega)
      have hh : src.getD 0 [] = src.headD [] := by cases src <;> rfl
      rw [hh] at h0
      unfold MpuPitchRoll.burst
      rw [step_skip _ _ h0]
      exact ih src.tail bufs (fun i hi => by rw [getD_tail]; exact hfail (i + 1) (by omega))

/-- Claim C3 (amended): when every read of the burst fails to decode, the
3-axis tick is skipped entirely (meshes untouched, no emission); the
2-axis tick leaves both buffers untouched and emits nothing when the
buffers are empty, and otherwise re-emits the latest sample already in
the buffers, i.e. the same transform as the prior tick. -/
theorem claim_C3_skip_behavior (src : List Line) (bufs : List ℚ × List ℚ)
    (meshes : List Mpu3d.Mesh)
    (h3 : ∀ i, i < 3 → (Mpu3d.parse_line (src.getD i [])).1 = none)
    (h5 : ∀ i, i < 5 →
      src.getD i [] = [] ∨ (MpuPitchRoll.parse_line (src.getD i [])).1 = none) :
    Mpu3d.update src meshes = (meshes, none, src.drop 3, 3) ∧
    (MpuPitchRoll.update src bufs).1 = bufs ∧
    (bufs.1 = [] → (MpuPitchRoll.update src bufs).2.1 = none) ∧
    (∀ p r : ℚ, bufs.1.getLast? = some p → bufs.2.getLast? = some r →
      (MpuPitchRoll.update src bufs).2.1 = some (p, r)) := by
  have hb3 := burst3_all_fail 3 src h3
  have hb5 := burst2_all_fail 5 src bufs h5
  refine ⟨?_, ?_, ?_, ?_⟩
  · unfold Mpu3d.update
    rw [hb3]
  · rw [update2_bufs, hb5]
  · intro h
    rw [update2_emit, hb5, if_pos (by simp [h])]
  · intro p r hp hr
    have hne : bufs.1.isEmpty = false := by
      cases hb : bufs.1 with
      | nil => rw [hb] at hp; simp at hp
      | cons z zs => simp [hb]
    rw [update2_emit, hb5, if_neg (by simp [hne])]
    simp [List.getLastD_eq_getLast?, hp, hr]

/-- Claim C2 (amended): if the first successful decode of the tick is at
position `j` of the source, the 3-axis burst performs exactly `j + 1`
reads and stops; the 2-axis burst performs all 5 reads regardless. -/
theorem claim_C2_burst_reads (src : List Line) (bufs : List ℚ × List ℚ) (j : ℕ)
    (hj : j < 3)
    (hfail : ∀ i, i < j → (Mpu3d.parse_line (src.getD i [])).1 = none)
    (hsucc : ((Mpu3d.parse_line (src.getD j [])).1).isSome) :
    Mpu3d.burst 3 src = (Mpu3d.parse_line (src.getD j []), src.drop (j + 1), j + 1) ∧
    (MpuPitchRoll.burst 5 src bufs).2.2 = 5 ∧
    (MpuPitchRoll.burst 5 src bufs).2.1 = src.drop 5 :=
  ⟨burst3_stops 3 j src hj hfail hsucc, (burst2_reads 5 src bufs).2,
   (burst2_reads 5 src bufs).1⟩

/-- Counterexample to claim C2 as stated: with a source whose very first
line decodes successfully, the 2-axis burst still performs all five
reads, not one. -/
theorem claim_C2_counterexample :
    ((MpuPitchRoll.parse_line ['1', ',', '2']).1).isSome = true ∧
    (MpuPitchRoll.burst 5 [['1', ',', '2']] ([], [])).2.2 = 5 ∧
    (MpuPitchRoll.burst 5 [['1', ',', '2']] ([], [])).2.2 ≠ 1 := by
  refine ⟨?_, (burst2_reads 5 _ _).2, ?_⟩
  · simp +decide [MpuPitchRoll.parse_line, splitOnComma, strip, isPySpace,
      pyFloat, parseMantissa, parseExp, digitsToNat]
  · rw [(burst2_reads 5 _ _).2]
    omega

/-- Counterexample to claim C3 as stated: with a non-empty buffer and a
burst in which every read fails, the 2-axis tick still performs a
rendering update (it re-emits the buffered sample) instead of skipping. -/
theorem claim_C3_counterexample :
    (MpuPitchRoll.update [] ([1], [2])).2.1 = some (1, 2) ∧
    (MpuPitchRoll.update [] ([1], [2])).1 = ([1], [2]) := by
  have hb : (MpuPitchRoll.burst 5 [] ([1], [2])).1 = ([1], [2]) :=
    burst2_all_fail 5 [] ([1], [2]) (fun i _ => Or.inl (by cases i <;> rfl))
  constructor
  · rw [update2_emit, hb]
    rfl
  · rw [update2_bufs, hb]

/-! ## Claim C1: the 3-axis tick rotates the current vertices in place -/

theorem Rz_halfpi_mulVec_e2 :
    (Rz (Real.pi / 2)).mulVec ![0, 1, 0] = ![(-1 : ℝ), 0, 0] := by
  ext i
  fin_cases i <;>
    simp [Rz, Matrix.mulVec, Matrix.dotProduct, Fin.sum_univ_three]

/-- On a successful first read, `update` of `mpu60503d.py` rotates the
current vertex buffer of every collection by the decoded matrix. -/
theorem update3_success (l : Line) (rest : List Line) (meshes : List Mpu3d.Mesh)
    (y p r : ℚ) (h : Mpu3d.parse_line l = (some y, some p, some r)) :
    Mpu3d.update (l :: rest) meshes =
      (meshes.map (Mpu3d.rotate_poly
        (Mpu3d.rotation_matrix ((y : ℚ) : ℝ) ((p : ℚ) : ℝ) ((r : ℚ) : ℝ))),
       some (y, p, r), rest, 1) := by
  have hb : Mpu3d.burst 3 (l :: rest) = ((some y, some p, some r), rest, 1) := by
    unfold Mpu3d.burst
    simp [h]
  unfold Mpu3d.update
  rw [hb]

/-- Claim C1, evaluated at the failing input: two consecutive 3-axis
ticks, each decoding the line `90,0,0`, starting from a single-vertex
mesh at `(1,0,0)`.  The code leaves the vertex at `(-1,0,0)` because
`rotate_poly` applies the fresh rotation to the already rotated vertices
of the previous tick, while the claimed recomputation from the fixed
topology built at startup would leave it at `(0,1,0)`. -/
theorem claim_C1_transform_accumulates :
    (Mpu3d.update [['9', '0', ',', '0', ',', '0']]
      ((Mpu3d.update [['9', '0', ',', '0', ',', '0']] [[[![1, 0, 0]]]]).1)).1 =
      [[[![(-1 : ℝ), 0, 0]]]] ∧
    (Mpu3d.rotation_matrix 90 0 0).mulVec ![1, 0, 0] = ![0, 1, 0] ∧
    ![(-1 : ℝ), 0, 0] ≠ ![0, 1, 0] := by
  have hp : Mpu3d.parse_line ['9', '0', ',', '0', ',', '0'] =
      (some 90, some 0, some 0) := by
    simp +decide [Mpu3d.parse_line, splitOnComma, strip, isPySpace, pyFloat,
      parseMantissa, parseExp, digitsToNat]
  have hR : Mpu3d.rotation_matrix ((90 : ℚ) : ℝ) ((0 : ℚ) : ℝ) ((0 : ℚ) : ℝ) =
      Rz (Real.pi / 2) := by
    rw [show ((90 : ℚ) : ℝ) = 90 by norm_num, show ((0 : ℚ) : ℝ) = 0 by norm_num,
      rot3_ninety]
  have h1 : (Mpu3d.update [['9', '0', ',', '0', ',', '0']] [[[![1, 0, 0]]]]).1 =
      [[[![(0 : ℝ), 1, 0]]]] := by
    rw [update3_success _ _ _ _ _ _ hp]
    simp only [List.map_cons, List.map_nil, Mpu3d.rotate_poly, hR]
    rw [show (Rz (Real.pi / 2)).mulVec ![1, 0, 0] = ![(0 : ℝ), 1, 0] from
      rot3_ninety ▸ rot3_ninety_mulVec]
  rw [h1]
  have h2 : (Mpu3d.update [['9', '0', ',', '0', ',', '0']] [[[![(0 : ℝ), 1, 0]]]]).1 =
      [[[![(-1 : ℝ), 0, 0]]]] := by
    rw [update3_success _ _ _ _ _ _ hp]
    simp only [List.map_cons, List.map_nil, Mpu3d.rotate_poly, hR]
    rw [Rz_halfpi_mulVec_e2]
  refine ⟨h2, rot3_ninety_mulVec, ?_⟩
  intro h
  have h0 := congrFun h 0
  simp at h0

/-- Concrete instance of `claim_C2_burst_reads`: first line malformed,
second line `1,2,3`. -/
theorem claim_C2_burst_reads_witness :
    ((1 : ℕ) < 3 ∧
     (∀ i, i < 1 →
       (Mpu3d.parse_line ([['x'], ['1', ',', '2', ',', '3']].getD i [])).1 = none) ∧
     ((Mpu3d.parse_line ([['x'], ['1', ',', '2', ',', '3']].getD 1 [])).1).isSome) ∧
    (Mpu3d.burst 3 [['x'], ['1', ',', '2', ',', '3']] =
       (Mpu3d.parse_line ([['x'], ['1', ',', '2', ',', '3']].getD 1 []),
        [['x'], ['1', ',', '2', ',', '3']].drop 2, 2) ∧
     (MpuPitchRoll.burst 5 [['x'], ['1', ',', '2', ',', '3']] ([], [])).2.2 = 5 ∧
     (MpuPitchRoll.burst 5 [['x'], ['1', ',', '2', ',', '3']] ([], [])).2.1 =
       [['x'], ['1', ',', '2', ',', '3']].drop 5) := by
  have hfail : ∀ i, i < 1 →
      (Mpu3d.parse_line ([['x'], ['1', ',', '2', ',', '3']].getD i [])).1 = none := by
    intro i hi
    interval_cases i
    simp +decide [Mpu3d.parse_line, splitOnComma, strip, isPySpace]
  have hsucc :
      ((Mpu3d.parse_line ([['x'], ['1', ',', '2', ',', '3']].getD 1 [])).1).isSome := by
    simp +decide [Mpu3d.parse_line, splitOnComma, strip, isPySpace, pyFloat,
      parseMantissa, parseExp, digitsToNat]
  exact ⟨⟨by decide, hfail, hsucc⟩,
    claim_C2_burst_reads _ ([], []) 1 (by decide) hfail hsucc⟩

/-- Concrete instance of `claim_C3_skip_behavior`: one malformed line,
non-empty buffers. -/
theorem claim_C3_skip_behavior_witness :
    ((∀ i, i < 3 → (Mpu3d.parse_line ([['x']].getD i [])).1 = none) ∧
     (∀ i, i < 5 →
       [['x']].getD i [] = [] ∨
         (MpuPitchRoll.parse_line ([['x']].getD i [])).1 = none)) ∧
    (Mpu3d.update [['x']] ([] : List Mpu3d.Mesh) =
       (([] : List Mpu3d.Mesh), none, [['x']].drop 3, 3) ∧
     (MpuPitchRoll.update [['x']] ([(3 : ℚ)], [(4 : ℚ)])).1 = ([(3 : ℚ)], [(4 : ℚ)]) ∧
     (([(3 : ℚ)] : List ℚ) = [] →
       (MpuPitchRoll.update [['x']] ([(3 : ℚ)], [(4 : ℚ)])).2.1 = none) ∧
     (∀ p r : ℚ, ([(3 : ℚ)] : List ℚ).getLast? = some p →
       ([(4 : ℚ)] : List ℚ).getLast? = some r →
       (MpuPitchRoll.update [['x']] ([(3 : ℚ)], [(4 : ℚ)])).2.1 = some (p, r))) := by
  have h3 : ∀ i, i < 3 → (Mpu3d.parse_line ([['x']].getD i [])).1 = none := by
    intro i hi
    interval_cases i <;> simp +decide [Mpu3d.parse_line, splitOnComma, strip, isPySpace]
  have h5 : ∀ i, i < 5 →
      [['x']].getD i [] = [] ∨
        (MpuPitchRoll.parse_line ([['x']].getD i [])).1 = none := by
    intro i hi
    interval_cases i
    · right
      simp +decide [MpuPitchRoll.parse_line, splitOnComma, strip, isPySpace]
    all_goals left; rfl
  exact ⟨⟨h3, h5⟩, claim_C3_skip_behavior [['x']] ([3], [4]) [] h3 h5⟩
